import Mathlib

/-!
Verification of the flang runtime collective-array-I/O engine
(`runtime/flang/descRW.c`) and the fast integer set
(`tools/flang2/flang2exe/fastset.h`).

The I/O engine is embedded as pure Lean functions that, besides the
status they compute, emit a trace of the externally visible actions
(callback invocations, resolver queries, buffer acquisition, and the
transport primitives send / receive / broadcast).  `descRW.c` stubs the
distribution resolvers and the status broadcast with local macros:
`__fort_owner(a,b)` is the constant 0, `__fort_next_owner(a,b,c,d)` is
the constant -1, and `__fortio_stat_bcst(a)` is `(*(a))` (identity).
The embedding reproduces those macros faithfully.
-/

/-- A participant-local pointer value: NULL, the per-run scratch buffer
returned by `__fort_getgbuf`, or an ordinary memory address. -/
inductive Ptr where
  | null : Ptr
  | gbuf : Ptr
  | mem : Int → Ptr
deriving DecidableEq, Repr

/-- Externally visible actions of one participant during a collective call:
local-address resolution, scratch-buffer acquisition, the I/O callback
(`f90io_rw`), the transport primitives `__fort_rsendl` / `__fort_rrecvl` /
`__fort_rbcstl`, and `__fort_describe_replication`. -/
inductive Event where
  | localAddress : List Int → Event
  | getgbuf : Int → Event
  | cb : Nat → Int → Int → Ptr → Int → Event
  | send : Int → Ptr → Int → Int → Nat → Int → Event
  | recv : Int → Ptr → Int → Int → Nat → Int → Event
  | bcst : Int → Ptr → Int → Int → Nat → Int → Event
  | describeRepl : Event
deriving DecidableEq, Repr

/-- The fields of the array descriptor `F90_Desc` that `descRW.c` reads:
the tag (`F90_TAG_G(ac) == __DESC` for a genuine array descriptor),
element kind (`F90_KIND_G` / `TYPEKIND`), element byte length
(`F90_LEN_G`), global element count (`F90_GSIZE_G`), rank
(`F90_RANK_G`) and the local base-offset coefficient (`DIST_SCOFF_G`). -/
structure Desc where
  tag_desc : Bool
  kind : Nat
  len : Int
  gsize : Int
  rank : Nat
  scoff : Int
deriving DecidableEq, Repr

/-- The execution environment of one participant: its rank
(`GET_DIST_LCPU`), the I/O coordinator rank (`GET_DIST_IOPROC`), the
`LOCAL_MODE` flag, the base address `ab`, the size table
(`GET_DIST_SIZE_OF`), the Local Address Resolver
(`__fort_local_address`, taking the adjusted base `z->ab` and the index
tuple), the I/O callback result function (`f90io_rw`), and the
replication-descriptor dimension count `z->repl.ndim` produced by
`__fort_describe_replication`.  The index tuple `z->index` is left
uninitialized in the rank-0 descriptor path, modelled by the arbitrary
tuple `uninitIndex`. -/
structure Env where
  lcpu : Int
  ioproc : Int
  localMode : Bool
  ab : Int
  sizeOfKind : Nat → Int
  localAdr : Int → List Int → Ptr
  f90io_rw : Nat → Int → Int → Ptr → Int → Int
  replNdim : Nat
  uninitIndex : List Int

/-- One run produced by the run iterator `__fortio_loop`: the fields of
`fio_parm` it sets before invoking the per-run transfer. -/
structure Zrun where
  cnt : Int
  str : Int
  index : List Int
deriving DecidableEq, Repr

/-- The per-run view of `fio_parm`: adjusted base address `z->ab`, the
current run `(z->cnt, z->str, z->index)`, and the accumulated status
`z->stat`. -/
structure Zparm where
  ab : Int
  cnt : Int
  str : Int
  index : List Int
  stat : Int
deriving DecidableEq, Repr

/-- `#define __fort_owner(a, b) 0` — the stubbed Ownership Resolver. -/
def fortOwner (_d : Desc) (_index : List Int) : Int := 0

/-- `#define __fort_next_owner(a, b, c, d) -1` — the stubbed replica-owner
enumeration: the negative sentinel is returned at once. -/
def fortNextOwner (_d : Desc) (_pc : List Int) (_owner : Int) : Int := -1

/-- `#define __fortio_stat_bcst(a) (*(a))` — the status "broadcast" is the
identity on the participant's own accumulated status. -/
def fortio_stat_bcst (stat : Int) : Int := stat

/-- The owner fan-out loop of `__io_read`:
`while (owner >= 0) { if (owner != lcpu) __fort_rsendl(owner, adr, cnt, str, kind, len); owner = __fort_next_owner(...); }`.
The loop is given as fuel-indexed iteration; since `__fort_next_owner`
is the constant -1 macro, every positive fuel computes the same list. -/
def ownerLoop (fuel : Nat) (lcpu : Int) (d : Desc) (pc : List Int)
    (adr : Ptr) (cnt str : Int) (kind : Nat) (len : Int) (owner : Int) :
    List Event :=
  match fuel with
  | 0 => []
  | fuel + 1 =>
    if 0 ≤ owner then
      (if owner ≠ lcpu then [Event.send owner adr cnt str kind len] else []) ++
        ownerLoop fuel lcpu d pc adr cnt str kind len (fortNextOwner d pc owner)
    else []

/-- `__io_read`: the per-run transfer on the read path. -/
def io_read (env : Env) (d : Desc) (z : Zparm) : Zparm × List Event :=
  let adr := env.localAdr z.ab z.index
  if env.localMode then
    if z.stat = 0 then
      ({ z with stat := env.f90io_rw d.kind z.cnt (z.str * d.len) adr d.len },
        [Event.localAddress z.index,
          Event.cb d.kind z.cnt (z.str * d.len) adr d.len])
    else (z, [Event.localAddress z.index])
  else
    let pre := [Event.localAddress z.index, Event.getgbuf (z.cnt * d.len)]
    if env.lcpu = env.ioproc then
      let adr' := if adr = Ptr.null then Ptr.gbuf else adr
      let str' := if adr = Ptr.null then 1 else z.str
      let stat' :=
        if z.stat = 0 then env.f90io_rw d.kind z.cnt (str' * d.len) adr' d.len
        else z.stat
      let evCb :=
        if z.stat = 0 then [Event.cb d.kind z.cnt (str' * d.len) adr' d.len]
        else []
      let pc := List.replicate env.replNdim (0 : Int)
      let evSend :=
        ownerLoop 2 env.lcpu d pc adr' z.cnt str' d.kind d.len
          (fortOwner d z.index)
      ({ z with stat := stat' }, pre ++ evCb ++ evSend)
    else
      if adr ≠ Ptr.null then
        (z, pre ++ [Event.recv env.ioproc adr z.cnt z.str d.kind d.len])
      else (z, pre)

/-- `__io_write`: the per-run transfer on the write path.  The resolved
local address is handed to the callback unchanged — there is no NULL
check — and no transport primitive is invoked. -/
def io_write (env : Env) (d : Desc) (z : Zparm) : Zparm × List Event :=
  let adr := env.localAdr z.ab z.index
  if z.stat = 0 then
    ({ z with stat := env.f90io_rw d.kind z.cnt (z.str * d.len) adr d.len },
      [Event.localAddress z.index,
        Event.cb d.kind z.cnt (z.str * d.len) adr d.len])
  else (z, [Event.localAddress z.index])

/-- Modelled from the spec: `__fortio_loop` (the Run Iterator) is external
to this core and given by contract only — it enumerates the index space
as a sequence of contiguous runs and invokes the per-run transfer
`z->fio_rw` once per run on the shared `fio_parm`.  The run sequence is
supplied as a list and folded over the accumulated status. -/
def runFold (step : Env → Desc → Zparm → Zparm × List Event) (env : Env)
    (d : Desc) (zab : Int) : List Zrun → Int → Int × List Event
  | [], stat => (stat, [])
  | r :: rs, stat =>
    let out := step env d ⟨zab, r.cnt, r.str, r.index, stat⟩
    let rest := runFold step env d zab rs out.1.stat
    (rest.1, out.2 ++ rest.2)

/-- `__fortio_main`: the collective entry point.  `rw = false` is a read,
`rw = true` a write.  For `rank > 0` the externally produced run list is
consumed; for a rank-0 array descriptor a single run of count 1, stride
1 is performed (with the uninitialized index tuple, as in the source). -/
def fortio_main (env : Env) (d : Desc) (rw : Bool) (runs : List Zrun) :
    Int × List Event :=
  if d.tag_desc = false then
    let sz := env.sizeOfKind d.kind
    let out :=
      if env.localMode = true ∨ env.lcpu = env.ioproc then
        (env.f90io_rw d.kind 1 1 (Ptr.mem env.ab) sz,
          [Event.cb d.kind 1 1 (Ptr.mem env.ab) sz])
      else ((0 : Int), ([] : List Event))
    let ev2 :=
      if rw = false ∧ env.localMode = false then
        [Event.bcst env.ioproc (Ptr.mem env.ab) 1 1 d.kind sz]
      else []
    (fortio_stat_bcst out.1, out.2 ++ ev2)
  else if d.gsize ≤ 0 then (0, [])
  else
    let zab := env.ab + d.scoff * d.len
    let ev0 :=
      if rw = false ∧ env.localMode = false then [Event.describeRepl] else []
    let runs' := if 0 < d.rank then runs else [⟨1, 1, env.uninitIndex⟩]
    let out := runFold (if rw then io_write else io_read) env d zab runs' 0
    (fortio_stat_bcst out.1, ev0 ++ out.2)

/-- Is an event one of the transport primitives (send / receive /
broadcast)? -/
def Event.isTransport : Event → Bool
  | Event.send _ _ _ _ _ _ => true
  | Event.recv _ _ _ _ _ _ => true
  | Event.bcst _ _ _ _ _ _ => true
  | _ => false

/-- Is an event an invocation of the I/O callback? -/
def Event.isCb : Event → Bool
  | Event.cb _ _ _ _ _ => true
  | _ => false

/-! ## The fast integer set (`fastset.h`)

The two backing arrays are modelled as total functions `Nat → Nat`
whose values outside the live range are arbitrary ("stale, never
zero-initialized" memory). -/

/-- `struct fastset { unsigned members, limit, *member, *index; }`. -/
structure fastset where
  members : Nat
  limit : Nat
  member : Nat → Nat
  index : Nat → Nat

/-- Pointwise array update `f[i] = v`. -/
def updFn (f : Nat → Nat) (i v : Nat) : Nat → Nat :=
  fun j => if j = i then v else f j

/-- `fastset_init`: both counters zero (the array contents are
irrelevant; the NULL arrays are modelled by the constant function). -/
def fastset_init_state : fastset :=
  ⟨0, 0, fun _ => 0, fun _ => 0⟩

/-- `fastset_vacate`: `set->members = 0`, array contents untouched. -/
def fastset_vacate (s : fastset) : fastset :=
  { s with members := 0 }

/-- Modelled from the spec: `fastset_resize` (its body lives in
`fastset.c`, which is not part of the given sources) grows the backing
capacity to at least `limit_hint`, preserving existing members and the
contents of both arrays; freshly allocated positions hold garbage,
already modelled by the total functions. -/
def fastset_resize (s : fastset) (limit_hint : Nat) : fastset :=
  { s with limit := max s.limit limit_hint }

/-- `fastset_contains`: `(unsigned)x < limit && (idx = index[x]) < members && member[idx] == x`. -/
def fastset_contains (s : fastset) (x : Nat) : Prop :=
  x < s.limit ∧ s.index x < s.members ∧ s.member (s.index x) = x

instance (s : fastset) (x : Nat) : Decidable (fastset_contains s x) :=
  inferInstanceAs
    (Decidable (x < s.limit ∧ s.index x < s.members ∧ s.member (s.index x) = x))

/-- The final store of `fastset_add`:
`set->member[set->index[x] = set->members++] = x`. -/
def fastset_add_store (s : fastset) (x : Nat) : fastset :=
  ⟨s.members + 1, s.limit, updFn s.member s.members x, updFn s.index x s.members⟩

/-- `fastset_add`: resize if the value is out of bounds, return unchanged
if it is already a member (`idx = set->index[x]` round-trips), otherwise
append it. -/
def fastset_add (s : fastset) (x : Nat) : fastset :=
  if s.limit ≤ x then fastset_add_store (fastset_resize s (x + 1)) x
  else if s.index x < s.members ∧ s.member (s.index x) = x then s
  else fastset_add_store s x

/-- `fastset_remove`: if present (`idx = set->index[x]` round-trips), fill
the vacated slot with the last live element
(`last = member[--members]; member[index[last] = idx] = last`). -/
def fastset_remove (s : fastset) (x : Nat) : fastset :=
  if x < s.limit then
    if s.index x < s.members ∧ s.member (s.index x) = x then
      ⟨s.members - 1, s.limit,
        updFn s.member (s.index x) (s.member (s.members - 1)),
        updFn s.index (s.member (s.members - 1)) (s.index x)⟩
    else s
  else s

/-- `fastset_pop`: `members == 0 ? -1 : member[--members]`. -/
def fastset_pop (s : fastset) : Int × fastset :=
  if s.members = 0 then (-1, s)
  else ((s.member (s.members - 1) : Int), { s with members := s.members - 1 })

/-- The representation invariant of `fastset.h`: the leading `members`
positions of `member[]` hold the distinct elements of the set, each
round-tripping through `index[]` and lying below `limit`.  Together
with the definition of `fastset_contains` this yields the documented
two predicates for members and the failure of the round-trip for
non-members, regardless of the stale remainder of both arrays. -/
def fastset_inv (s : fastset) : Prop :=
  ∀ p, p < s.members → s.member p < s.limit ∧ s.index (s.member p) = p

instance (s : fastset) : Decidable (fastset_inv s) :=
  inferInstanceAs
    (Decidable (∀ p, p < s.members → s.member p < s.limit ∧ s.index (s.member p) = p))

/-! ## Concrete instances used to exercise the theorems -/

/-- A single-participant (`LOCAL_MODE`) environment whose callback
succeeds, with a 4-byte scalar kind and a NULL local-address resolver. -/
def envL : Env :=
  ⟨0, 0, true, 0, fun _ => 4, fun _ _ => Ptr.null, fun _ _ _ _ _ => 0, 0, []⟩

/-- A multi-participant I/O coordinator (rank 0 = ioproc) whose callback
always fails with status 1 and that owns local data. -/
def envC1 : Env :=
  ⟨0, 0, false, 0, fun _ => 4, fun _ _ => Ptr.mem 3, fun _ _ _ _ _ => 1, 1, []⟩

/-- A multi-participant non-coordinator (rank 1, ioproc 0) holding local
data for every run. -/
def envN1 : Env :=
  ⟨1, 0, false, 0, fun _ => 4, fun _ _ => Ptr.mem 5, fun _ _ _ _ _ => 1, 1, []⟩

/-- A multi-participant I/O coordinator at rank 1 (ioproc 1) that owns no
local data (NULL resolver), callback succeeding. -/
def envC2 : Env :=
  ⟨1, 1, false, 0, fun _ => 4, fun _ _ => Ptr.null, fun _ _ _ _ _ => 0, 1, []⟩

/-- A multi-participant non-coordinator at rank 0 (ioproc 1) — the
participant the stubbed Ownership Resolver designates — holding local
data for every run. -/
def envN2 : Env :=
  ⟨0, 1, false, 0, fun _ => 4, fun _ _ => Ptr.mem 7, fun _ _ _ _ _ => 0, 1, []⟩

/-- A rank-1 array descriptor with one element of length 1. -/
def dA : Desc := ⟨true, 0, 1, 1, 1, 0⟩

/-- A scalar (non-`__DESC`) descriptor of a 4-byte kind. -/
def dS : Desc := ⟨false, 0, 4, 1, 0, 0⟩

/-- A zero-size rank-1 array descriptor. -/
def dZ : Desc := ⟨true, 0, 4, 0, 1, 0⟩

/-- A one-run sequence: count 1, stride 1, index (0). -/
def runs1 : List Zrun := [⟨1, 1, [0]⟩]

/-- A per-run state with count 2, stride 5, status 0. -/
def zp0 : Zparm := ⟨0, 2, 5, [0], 0⟩

/-- A per-run state with an already-recorded failure status 7. -/
def zp7 : Zparm := ⟨0, 2, 5, [0], 7⟩

/-! ## Fast-set lemmas -/

theorem updFn_self (f : Nat → Nat) (i v : Nat) : updFn f i v i = v := by
  simp [updFn]

theorem updFn_ne (f : Nat → Nat) (i v j : Nat) (h : j ≠ i) :
    updFn f i v j = f j := by
  simp [updFn, h]

theorem fastset_contains_def (s : fastset) (x : Nat) :
    fastset_contains s x ↔
      x < s.limit ∧ s.index x < s.members ∧ s.member (s.index x) = x :=
  Iff.rfl

theorem fastset_contains_resize (s : fastset) (n y : Nat)
    (hy : fastset_contains s y) : fastset_contains (fastset_resize s n) y :=
  ⟨lt_of_lt_of_le hy.1 (le_max_left _ _), hy.2.1, hy.2.2⟩

theorem fastset_contains_add_store_self (s : fastset) (x : Nat)
    (hx : x < s.limit) : fastset_contains (fastset_add_store s x) x := by
  refine ⟨hx, ?_, ?_⟩
  · simp only [fastset_add_store]
    rw [updFn_self]
    omega
  · simp only [fastset_add_store]
    rw [updFn_self, updFn_self]

theorem fastset_contains_add_store (s : fastset) (x y : Nat)
    (hy : fastset_contains s y) (hne : y ≠ x) :
    fastset_contains (fastset_add_store s x) y := by
  obtain ⟨h1, h2, h3⟩ := hy
  refine ⟨h1, ?_, ?_⟩
  · simp only [fastset_add_store]
    rw [updFn_ne _ _ _ _ hne]
    omega
  · simp only [fastset_add_store]
    rw [updFn_ne _ _ _ _ hne, updFn_ne _ _ _ _ (Nat.ne_of_lt h2)]
    exact h3

theorem fastset_add_store_inv (s : fastset) (x : Nat) (hx : x < s.limit)
    (h : fastset_inv s) (hne : ∀ p, p < s.members → s.member p ≠ x) :
    fastset_inv (fastset_add_store s x) := by
  intro p hp
  simp only [fastset_add_store] at hp ⊢
  rcases Nat.lt_succ_iff_lt_or_eq.mp hp with hlt | heq
  · have hm := h p hlt
    rw [updFn_ne _ _ _ _ (Nat.ne_of_lt hlt)]
    refine ⟨hm.1, ?_⟩
    rw [updFn_ne _ _ _ _ (hne p hlt)]
    exact hm.2
  · subst heq
    rw [updFn_self]
    exact ⟨hx, by rw [updFn_self]⟩

theorem fastset_resize_inv (s : fastset) (n : Nat) (h : fastset_inv s) :
    fastset_inv (fastset_resize s n) := by
  intro p hp
  have hm := h p hp
  exact ⟨lt_of_lt_of_le hm.1 (le_max_left _ _), hm.2⟩

theorem fastset_add_inv (s : fastset) (x : Nat) (h : fastset_inv s) :
    fastset_inv (fastset_add s x) := by
  unfold fastset_add
  split
  next hlim =>
    refine fastset_add_store_inv _ _ ?_ (fastset_resize_inv _ _ h) ?_
    · simp only [fastset_resize]
      omega
    · intro p hp hpx
      simp only [fastset_resize] at hpx
      have hm := (h p hp).1
      omega
  next hlim =>
    split
    next hmem => exact h
    next hmem =>
      refine fastset_add_store_inv _ _ (by omega) h ?_
      intro p hp hpx
      have h2 := (h p hp).2
      rw [hpx] at h2
      exact hmem ⟨h2 ▸ hp, by rw [h2, hpx]⟩

theorem fastset_remove_inv (s : fastset) (x : Nat) (h : fastset_inv s) :
    fastset_inv (fastset_remove s x) := by
  unfold fastset_remove
  split
  next hxl =>
    split
    next hmem =>
      obtain ⟨hidx, hmx⟩ := hmem
      intro p hp
      have hp' : p < s.members - 1 := hp
      have hlast := h (s.members - 1) (by omega)
      dsimp only
      by_cases hpidx : p = s.index x
      · subst hpidx
        refine ⟨?_, ?_⟩
        · rw [updFn_self]
          exact hlast.1
        · rw [updFn_self, updFn_self]
      · have hpm := h p (by omega)
        have hpne : s.member p ≠ s.member (s.members - 1) := by
          intro heq
          have h1 := hpm.2
          rw [heq] at h1
          have h2 := hlast.2
          omega
        refine ⟨?_, ?_⟩
        · rw [updFn_ne _ _ _ _ hpidx]
          exact hpm.1
        · rw [updFn_ne _ _ _ _ hpidx, updFn_ne _ _ _ _ hpne]
          exact hpm.2
    next hmem => exact h
  next hxl => exact h

/-- C7: after every public fastset operation (init, vacate, add, remove,
pop), the representation invariant holds: the leading `members` slots of
`member[]` hold values below `limit` that round-trip through `index[]`;
together with the definition of `fastset_contains` this gives the
documented member / non-member conditions regardless of the stale
contents of the rest of both arrays. -/
theorem C7_fastset_rep_invariant :
    fastset_inv fastset_init_state ∧
    (∀ s, fastset_inv s → fastset_inv (fastset_vacate s)) ∧
    (∀ s x, fastset_inv s → fastset_inv (fastset_add s x)) ∧
    (∀ s x, fastset_inv s → fastset_inv (fastset_remove s x)) ∧
    (∀ s, fastset_inv s → fastset_inv (fastset_pop s).2) := by
  refine ⟨?_, ?_, fastset_add_inv, fastset_remove_inv, ?_⟩
  · intro p hp
    exact absurd hp (by simp [fastset_init_state])
  · intro s _ p hp
    exact absurd hp (by simp [fastset_vacate])
  · intro s h
    unfold fastset_pop
    split
    · exact h
    · intro p hp
      have hp' : p < s.members - 1 := hp
      exact h p (by omega)

theorem C7_fastset_rep_invariant_witness :
    fastset_inv (fastset_vacate (fastset_add fastset_init_state 3)) ∧
    fastset_inv (fastset_add fastset_init_state 3) ∧
    fastset_inv (fastset_remove (fastset_add fastset_init_state 3) 3) ∧
    fastset_inv (fastset_pop (fastset_add fastset_init_state 3)).2 := by
  have h := C7_fastset_rep_invariant
  exact ⟨h.2.1 _ (by decide), h.2.2.1 _ 3 (by decide),
    h.2.2.2.1 _ 3 (by decide), h.2.2.2.2 _ (by decide)⟩

/-- C8: for every fastset satisfying the representation invariant and
every nonnegative x, after `fastset_add(set, x)`: `fastset_contains(set, x)`
holds, the member count grows by exactly one if x was absent and is
unchanged if it was present (idempotence), and previously present
members remain present. -/
theorem C8_fastset_add_correct (s : fastset) (x : Nat)
    (_hinv : fastset_inv s) :
    fastset_contains (fastset_add s x) x ∧
    (fastset_add s x).members =
      (if fastset_contains s x then s.members else s.members + 1) ∧
    ∀ y, fastset_contains s y → fastset_contains (fastset_add s x) y := by
  refine ⟨?_, ?_, ?_⟩
  · unfold fastset_add
    split
    next hlim =>
      refine fastset_contains_add_store_self _ _ ?_
      simp only [fastset_resize]
      omega
    next hlim =>
      split
      next hmem => exact ⟨by omega, hmem.1, hmem.2⟩
      next hmem => exact fastset_contains_add_store_self _ _ (by omega)
  · unfold fastset_add
    split
    next hlim =>
      rw [if_neg (fun hc : fastset_contains s x => by have := hc.1; omega)]
      rfl
    next hlim =>
      split
      next hmem =>
        have hc : fastset_contains s x := ⟨by omega, hmem.1, hmem.2⟩
        rw [if_pos hc]
      next hmem =>
        rw [if_neg (fun hc : fastset_contains s x => hmem ⟨hc.2.1, hc.2.2⟩)]
        rfl
  · intro y hy
    unfold fastset_add
    split
    next hlim =>
      refine fastset_contains_add_store _ _ _ (fastset_contains_resize _ _ _ hy) ?_
      have := hy.1
      omega
    next hlim =>
      split
      next hmem => exact hy
      next hmem =>
        refine fastset_contains_add_store _ _ _ hy ?_
        intro he
        subst he
        exact hmem ⟨hy.2.1, hy.2.2⟩

theorem C8_fastset_add_correct_witness :
    fastset_inv fastset_init_state ∧
    fastset_contains (fastset_add fastset_init_state 5) 5 :=
  ⟨by decide, (C8_fastset_add_correct fastset_init_state 5 (by decide)).1⟩

/-- C9: for every fastset satisfying the representation invariant and
every current member x, after `fastset_remove(set, x)`: x is no longer
contained, every other value is contained afterwards exactly when it was
before (members preserved, none added), and the member count decreases
by exactly one. -/
theorem C9_fastset_remove_correct (s : fastset) (x : Nat)
    (hinv : fastset_inv s) (hx : fastset_contains s x) :
    ¬ fastset_contains (fastset_remove s x) x ∧
    (∀ y, y ≠ x →
      (fastset_contains (fastset_remove s x) y ↔ fastset_contains s y)) ∧
    (fastset_remove s x).members + 1 = s.members := by
  obtain ⟨hxl, hidx, hmx⟩ := hx
  have hbr : fastset_remove s x =
      ⟨s.members - 1, s.limit,
        updFn s.member (s.index x) (s.member (s.members - 1)),
        updFn s.index (s.member (s.members - 1)) (s.index x)⟩ := by
    unfold fastset_remove
    rw [if_pos hxl, if_pos ⟨hidx, hmx⟩]
  have hlast := hinv (s.members - 1) (by omega)
  refine ⟨?_, ?_, ?_⟩
  · rw [hbr]
    rintro ⟨h1, h2, h3⟩
    dsimp only at h2 h3
    by_cases hxlast : x = s.member (s.members - 1)
    · rw [hxlast, updFn_self, hlast.2] at h2
      omega
    · rw [updFn_ne _ _ _ _ hxlast] at h2 h3
      rw [updFn_self] at h3
      exact hxlast h3.symm
  · intro y hyx
    rw [hbr]
    constructor
    · rintro ⟨h1, h2, h3⟩
      dsimp only at h1 h2 h3
      by_cases hylast : y = s.member (s.members - 1)
      · refine ⟨?_, ?_, ?_⟩
        · rw [hylast]
          exact hlast.1
        · rw [hylast, hlast.2]
          omega
        · rw [hylast, hlast.2]
      · rw [updFn_ne _ _ _ _ hylast] at h2 h3
        by_cases hj : s.index y = s.index x
        · rw [hj, updFn_self] at h3
          exact absurd h3.symm hylast
        · rw [updFn_ne _ _ _ _ hj] at h3
          exact ⟨h1, by omega, h3⟩
    · rintro ⟨h1, h2, h3⟩
      have hq_ne_idx : s.index y ≠ s.index x := by
        intro he
        apply hyx
        rw [← h3, he, hmx]
      refine ⟨h1, ?_, ?_⟩
      · by_cases hql : s.index y = s.members - 1
        · have hyl : s.member (s.members - 1) = y := by
            rw [← hql]
            exact h3
          have hne : s.index x ≠ s.members - 1 := by
            intro he
            exact hq_ne_idx (hql.trans he.symm)
          dsimp only
          rw [← hyl, updFn_self]
          omega
        · have hyl : y ≠ s.member (s.members - 1) := by
            intro he
            apply hql
            rw [he]
            exact hlast.2
          dsimp only
          rw [updFn_ne _ _ _ _ hyl]
          omega
      · by_cases hql : s.index y = s.members - 1
        · have hyl : s.member (s.members - 1) = y := by
            rw [← hql]
            exact h3
          dsimp only
          rw [← hyl, updFn_self, updFn_self]
        · have hyl : y ≠ s.member (s.members - 1) := by
            intro he
            apply hql
            rw [he]
            exact hlast.2
          dsimp only
          rw [updFn_ne _ _ _ _ hyl, updFn_ne _ _ _ _ hq_ne_idx]
          exact h3
  · rw [hbr]
    show s.members - 1 + 1 = s.members
    omega

theorem C9_fastset_remove_correct_witness :
    fastset_inv (fastset_add fastset_init_state 3) ∧
    fastset_contains (fastset_add fastset_init_state 3) 3 ∧
    ¬ fastset_contains (fastset_remove (fastset_add fastset_init_state 3) 3) 3 :=
  ⟨by decide, by decide,
    (C9_fastset_remove_correct (fastset_add fastset_init_state 3) 3
      (by decide) (by decide)).1⟩

/-! ## I/O engine lemmas -/

theorem io_read_state_noncoord (env : Env) (d : Desc) (z : Zparm)
    (hm : env.localMode = false) (hn : env.lcpu ≠ env.ioproc) :
    (io_read env d z).1 = z := by
  by_cases hadr : env.localAdr z.ab z.index = Ptr.null <;>
    simp [io_read, hm, hn, hadr]

theorem io_read_stat_nonzero (env : Env) (d : Desc) (z : Zparm)
    (hs : z.stat ≠ 0) : (io_read env d z).1.stat = z.stat := by
  by_cases hm : env.localMode = true <;>
    by_cases hc : env.lcpu = env.ioproc <;>
    by_cases hadr : env.localAdr z.ab z.index = Ptr.null <;>
    simp [io_read, hm, hc, hadr, hs]

theorem io_read_coord_const (env : Env) (d : Desc) (z : Zparm) (c : Int)
    (hm : env.localMode = false) (hc : env.lcpu = env.ioproc)
    (h0 : z.stat = 0) (hio : ∀ k n s a l, env.f90io_rw k n s a l = c) :
    (io_read env d z).1.stat = c := by
  simp [io_read, hm, hc, h0, hio]

theorem io_write_stat_nonzero (env : Env) (d : Desc) (z : Zparm)
    (hs : z.stat ≠ 0) :
    (io_write env d z).1 = z ∧
    (io_write env d z).2 = [Event.localAddress z.index] := by
  simp [io_write, hs]

theorem runFold_stat_frozen (step : Env → Desc → Zparm → Zparm × List Event)
    (env : Env) (d : Desc) (zab : Int)
    (hstep : ∀ z, z.stat ≠ 0 → (step env d z).1.stat = z.stat) :
    ∀ runs s, s ≠ 0 → (runFold step env d zab runs s).1 = s := by
  intro runs
  induction runs with
  | nil => intro s _; rfl
  | cons r rs ih =>
    intro s hs
    simp only [runFold]
    rw [hstep ⟨zab, r.cnt, r.str, r.index, s⟩ hs]
    exact ih s hs

theorem runFold_noncoord_read (env : Env) (d : Desc) (zab : Int)
    (hm : env.localMode = false) (hn : env.lcpu ≠ env.ioproc) :
    ∀ runs s, (runFold io_read env d zab runs s).1 = s := by
  intro runs
  induction runs with
  | nil => intro s; rfl
  | cons r rs ih =>
    intro s
    simp only [runFold]
    rw [io_read_state_noncoord env d _ hm hn]
    exact ih s

theorem runFold_append (step : Env → Desc → Zparm → Zparm × List Event)
    (env : Env) (d : Desc) (zab : Int) :
    ∀ r1 r2 s,
      runFold step env d zab (r1 ++ r2) s =
        ((runFold step env d zab r2 (runFold step env d zab r1 s).1).1,
          (runFold step env d zab r1 s).2 ++
            (runFold step env d zab r2 (runFold step env d zab r1 s).1).2) := by
  intro r1
  induction r1 with
  | nil => intro r2 s; simp [runFold]
  | cons r rs ih =>
    intro r2 s
    simp only [List.cons_append, runFold, List.append_eq]
    rw [ih]
    simp [List.append_assoc]

theorem runFold_events_from_step
    (step : Env → Desc → Zparm → Zparm × List Event) (env : Env) (d : Desc)
    (zab : Int) :
    ∀ runs s e, e ∈ (runFold step env d zab runs s).2 →
      ∃ z, e ∈ (step env d z).2 := by
  intro runs
  induction runs with
  | nil => intro s e he; simp [runFold] at he
  | cons r rs ih =>
    intro s e he
    simp only [runFold] at he
    rw [List.mem_append] at he
    rcases he with he | he
    · exact ⟨_, he⟩
    · exact ih _ e he

theorem ownerLoop_no_cb (lcpu : Int) (d : Desc) (pc : List Int) (adr : Ptr)
    (cnt str : Int) (kind : Nat) (len : Int) :
    ∀ fuel owner e, e ∈ ownerLoop fuel lcpu d pc adr cnt str kind len owner →
      e.isCb = false := by
  intro fuel
  induction fuel with
  | zero => intro owner e he; simp [ownerLoop] at he
  | succ n ih =>
    intro owner e he
    simp only [ownerLoop] at he
    split at he
    · rw [List.mem_append] at he
      rcases he with he | he
      · split at he
        · simp at he
          subst he
          rfl
        · simp at he
      · exact ih _ e he
    · simp at he

theorem ownerLoop_no_recv (lcpu : Int) (d : Desc) (pc : List Int) (adr : Ptr)
    (cnt str : Int) (kind : Nat) (len : Int) :
    ∀ fuel owner e, e ∈ ownerLoop fuel lcpu d pc adr cnt str kind len owner →
      ∃ o, e = Event.send o adr cnt str kind len := by
  intro fuel
  induction fuel with
  | zero => intro owner e he; simp [ownerLoop] at he
  | succ n ih =>
    intro owner e he
    simp only [ownerLoop] at he
    split at he
    · rw [List.mem_append] at he
      rcases he with he | he
      · split at he
        · simp at he
          exact ⟨owner, he⟩
        · simp at he
      · exact ih _ e he
    · simp at he

theorem io_read_coord_events (env : Env) (d : Desc) (z : Zparm)
    (hm : env.localMode = false) (hc : env.lcpu = env.ioproc) :
    (io_read env d z).2 =
      [Event.localAddress z.index, Event.getgbuf (z.cnt * d.len)] ++
        (if z.stat = 0 then
          [Event.cb d.kind z.cnt
            ((if env.localAdr z.ab z.index = Ptr.null then 1 else z.str) * d.len)
            (if env.localAdr z.ab z.index = Ptr.null then Ptr.gbuf
              else env.localAdr z.ab z.index) d.len]
        else []) ++
        ownerLoop 2 env.lcpu d (List.replicate env.replNdim 0)
          (if env.localAdr z.ab z.index = Ptr.null then Ptr.gbuf
            else env.localAdr z.ab z.index) z.cnt
          (if env.localAdr z.ab z.index = Ptr.null then 1 else z.str)
          d.kind d.len (fortOwner d z.index) := by
  simp [io_read, hm, hc]

theorem io_write_no_transport (env : Env) (d : Desc) (z : Zparm) :
    ∀ e ∈ (io_write env d z).2, e.isTransport = false := by
  intro e he
  by_cases hs : z.stat = 0
  · simp [io_write, hs] at he
    rcases he with rfl | rfl <;> rfl
  · simp [io_write, hs] at he
    subst he
    rfl

/-- C3: for every array descriptor (non-scalar tag) with global element
count ≤ 0, `__fortio_main` returns 0 immediately in both read and write
mode, with an empty action trace — no callback, no resolver query, no
buffer acquisition and no transport primitive. -/
theorem C3_zero_size_short_circuit (env : Env) (d : Desc) (rw : Bool)
    (runs : List Zrun) (htag : d.tag_desc = true) (hsz : d.gsize ≤ 0) :
    fortio_main env d rw runs = (0, []) := by
  simp [fortio_main, htag, hsz]

theorem C3_zero_size_short_circuit_witness :
    fortio_main envC1 dZ false runs1 = (0, []) ∧
    fortio_main envC1 dZ true runs1 = (0, []) :=
  ⟨C3_zero_size_short_circuit envC1 dZ false runs1 (by decide) (by decide),
    C3_zero_size_short_circuit envC1 dZ true runs1 (by decide) (by decide)⟩

/-- C4: on the write path, a run that starts with a nonzero recorded
status leaves the state unchanged and performs only the address
resolution (no callback); `__io_write` never emits a transport event; a
fold of runs started from a nonzero status returns that status
unchanged, so the first failure's code is what the collective call
returns even when further runs follow. -/
theorem C4_write_failure_short_circuit :
    (∀ env d z, z.stat ≠ 0 →
        (io_write env d z).1 = z ∧
        (io_write env d z).2 = [Event.localAddress z.index]) ∧
    (∀ env d z, ∀ e ∈ (io_write env d z).2, e.isTransport = false) ∧
    (∀ env d zab runs s, s ≠ 0 →
        (runFold io_write env d zab runs s).1 = s) ∧
    (∀ env d zab runs₁ runs₂,
        (runFold io_write env d zab runs₁ 0).1 ≠ 0 →
        (runFold io_write env d zab (runs₁ ++ runs₂) 0).1 =
          (runFold io_write env d zab runs₁ 0).1) := by
  have hfreeze : ∀ (env : Env) (d : Desc) (zab : Int) runs s, s ≠ 0 →
      (runFold io_write env d zab runs s).1 = s := by
    intro env d zab runs s hs
    exact runFold_stat_frozen io_write env d zab
      (fun z hz => by rw [(io_write_stat_nonzero env d z hz).1]) runs s hs
  refine ⟨fun env d z hs => io_write_stat_nonzero env d z hs,
    io_write_no_transport, hfreeze, ?_⟩
  intro env d zab runs₁ runs₂ hs
  rw [runFold_append]
  exact hfreeze env d zab runs₂ _ hs

theorem C4_write_failure_short_circuit_witness :
    (io_write envL dA zp7).1 = zp7 ∧
    (io_write envL dA zp7).2 = [Event.localAddress zp7.index] :=
  C4_write_failure_short_circuit.1 envL dA zp7 (by decide)

/-- C5, counterexample: in single-participant mode a scalar write invokes
the callback exactly once with count 1, but the stride argument passed
is the literal 1 (`f90io_rw(kind, 1, 1, ab, size_of_kind)`), not the
element length: with a 4-byte kind the single callback carries stride
argument 1 while the element length is 4, and no callback whose stride
argument equals the element length occurs. -/
theorem C5_scalar_write_stride_counterexample :
    (fortio_main envL dS true []).2 = [Event.cb 0 1 1 (Ptr.mem 0) 4] ∧
    Event.cb 0 1 4 (Ptr.mem 0) 4 ∉ (fortio_main envL dS true []).2 := by
  decide

/-- C5 (amended): in single-participant (local) mode, a scalar write
invokes the ioCallback exactly once with count 1 and stride argument
literally 1 (not scaled to the element length, which is passed as the
final argument), and no broadcast occurs — the whole trace is that
single callback. -/
theorem C5_scalar_write_local (env : Env) (d : Desc) (runs : List Zrun)
    (hm : env.localMode = true) (htag : d.tag_desc = false) :
    (fortio_main env d true runs).2 =
      [Event.cb d.kind 1 1 (Ptr.mem env.ab) (env.sizeOfKind d.kind)] ∧
    (fortio_main env d true runs).1 =
      env.f90io_rw d.kind 1 1 (Ptr.mem env.ab) (env.sizeOfKind d.kind) := by
  constructor <;> simp [fortio_main, hm, htag, fortio_stat_bcst]

theorem C5_scalar_write_local_witness :
    (fortio_main envL dS true []).2 =
      [Event.cb dS.kind 1 1 (Ptr.mem envL.ab) (envL.sizeOfKind dS.kind)] ∧
    (fortio_main envL dS true []).1 =
      envL.f90io_rw dS.kind 1 1 (Ptr.mem envL.ab) (envL.sizeOfKind dS.kind) :=
  C5_scalar_write_local envL dS [] (by decide) (by decide)

/-- C10 (implicit): `__io_write` hands the callback exactly the address
the Local Address Resolver returned — with no NULL check and no
scratch-buffer redirection — so with a NULL resolved address the
callback is still invoked, on NULL; by contrast the multi-participant
read path at the coordinator never invokes the callback on NULL. -/
theorem C10_write_passes_null_address (env : Env) (d : Desc) (z : Zparm)
    (h0 : z.stat = 0) :
    (io_write env d z).2 =
      [Event.localAddress z.index,
        Event.cb d.kind z.cnt (z.str * d.len) (env.localAdr z.ab z.index) d.len] ∧
    (env.localAdr z.ab z.index = Ptr.null →
        Event.cb d.kind z.cnt (z.str * d.len) Ptr.null d.len ∈
          (io_write env d z).2) ∧
    (env.localMode = false → env.lcpu = env.ioproc →
        ∀ k c st l, Event.cb k c st Ptr.null l ∉ (io_read env d z).2) := by
  refine ⟨by simp [io_write, h0], ?_, ?_⟩
  · intro hnull
    simp [io_write, h0, hnull]
  · intro hm hc k c st l hmem
    rw [io_read_coord_events env d z hm hc, if_pos h0] at hmem
    rcases List.mem_append.mp hmem with h1 | h2
    · rcases List.mem_append.mp h1 with h3 | h4
      · rcases List.mem_cons.mp h3 with he | he
        · exact Event.noConfusion he
        · rcases List.mem_cons.mp he with he2 | he2
          · exact Event.noConfusion he2
          · exact absurd he2 (List.not_mem_nil _)
      · rcases List.mem_cons.mp h4 with he | he
        · injection he with e1 e2 e3 e4 e5
          by_cases hadr : env.localAdr z.ab z.index = Ptr.null
          · rw [if_pos hadr] at e4
            exact Ptr.noConfusion e4
          · rw [if_neg hadr] at e4
            exact hadr e4.symm
        · exact absurd he (List.not_mem_nil _)
    · have := ownerLoop_no_cb _ _ _ _ _ _ _ _ _ _ _ h2
      simp [Event.isCb] at this

theorem C10_write_passes_null_address_witness :
    (io_write envL dA zp0).2 =
      [Event.localAddress zp0.index,
        Event.cb dA.kind zp0.cnt (zp0.str * dA.len)
          (envL.localAdr zp0.ab zp0.index) dA.len] ∧
    Event.cb dA.kind zp0.cnt (zp0.str * dA.len) Ptr.null dA.len ∈
      (io_write envL dA zp0).2 := by
  have h := C10_write_passes_null_address envL dA zp0 (by decide)
  exact ⟨h.1, h.2.1 (by decide)⟩

/-- C6: on the multi-participant read path, the coordinator whose locally
resolved address is NULL redirects the callback into the scratch buffer
with stride 1 (byte-stride argument `1 * len`); a non-coordinator
receives the run into its local address exactly when that address is
non-NULL; and a participant owning nothing in the run performs no
transport operation at all. -/
theorem C6_read_null_redirect_and_receive (env : Env) (d : Desc) (z : Zparm)
    (hm : env.localMode = false) :
    (env.lcpu = env.ioproc → env.localAdr z.ab z.index = Ptr.null →
      z.stat = 0 →
      Event.cb d.kind z.cnt (1 * d.len) Ptr.gbuf d.len ∈ (io_read env d z).2) ∧
    (env.lcpu ≠ env.ioproc →
      (Event.recv env.ioproc (env.localAdr z.ab z.index) z.cnt z.str d.kind d.len
          ∈ (io_read env d z).2 ↔ env.localAdr z.ab z.index ≠ Ptr.null)) ∧
    (env.lcpu ≠ env.ioproc → env.localAdr z.ab z.index = Ptr.null →
      ∀ e ∈ (io_read env d z).2, e.isTransport = false) := by
  refine ⟨?_, ?_, ?_⟩
  · intro hc hnull h0
    rw [io_read_coord_events env d z hm hc, if_pos h0]
    simp [hnull]
  · intro hn
    constructor
    · intro hmem
      by_cases hadr : env.localAdr z.ab z.index = Ptr.null
      · exfalso
        simp [io_read, hm, hn, hadr] at hmem
      · exact hadr
    · intro hadr
      simp [io_read, hm, hn, hadr]
  · intro hn hnull e he
    simp [io_read, hm, hn, hnull] at he
    rcases he with rfl | rfl <;> rfl

theorem C6_read_null_redirect_and_receive_witness :
    Event.cb dA.kind zp0.cnt (1 * dA.len) Ptr.gbuf dA.len ∈
      (io_read envC2 dA zp0).2 ∧
    Event.recv envN2.ioproc (envN2.localAdr zp0.ab zp0.index) zp0.cnt zp0.str
        dA.kind dA.len ∈ (io_read envN2 dA zp0).2 :=
  ⟨(C6_read_null_redirect_and_receive envC2 dA zp0 rfl).1 rfl rfl rfl,
    ((C6_read_null_redirect_and_receive envN2 dA zp0 rfl).2.1
      (by decide)).mpr (by decide)⟩

/-- C1, counterexample: with the status "broadcast" stubbed to the
identity (`#define __fortio_stat_bcst(a) (*(a))`), a multi-participant
read whose coordinator callback fails with status 1 returns 1 at the
coordinator but 0 at a non-coordinator participant of the same
collective call — the participants do not observe the same status. -/
theorem C1_status_divergence_counterexample :
    envC1.localMode = false ∧ envN1.localMode = false ∧
    envC1.ioproc = envN1.ioproc ∧ envC1.lcpu = envC1.ioproc ∧
    envN1.lcpu ≠ envN1.ioproc ∧
    (fortio_main envC1 dA false runs1).1 = 1 ∧
    (fortio_main envN1 dA false runs1).1 = 0 := by
  decide

/-- C1 (amended): after a multi-participant collective array read, each
participant returns its own locally accumulated status —
`__fortio_stat_bcst` is the identity macro, so no status is propagated:
the coordinator returns the (nonzero) status of its failing callback,
while every non-coordinator participant returns 0, since the read path
never records a status off the coordinator. -/
theorem C1_read_status_is_local (envC envN : Env) (d : Desc)
    (runs : List Zrun) (c : Int)
    (hCm : envC.localMode = false) (hCc : envC.lcpu = envC.ioproc)
    (hNm : envN.localMode = false) (hNc : envN.lcpu ≠ envN.ioproc)
    (hc : c ≠ 0) (hio : ∀ k n s a l, envC.f90io_rw k n s a l = c)
    (htag : d.tag_desc = true) (hsz : 0 < d.gsize) (hrk : 0 < d.rank)
    (hruns : runs ≠ []) :
    (fortio_main envC d false runs).1 = c ∧
    (fortio_main envN d false runs).1 = 0 := by
  have hgz : ¬ d.gsize ≤ 0 := by omega
  constructor
  · obtain ⟨r, rs, rfl⟩ := List.exists_cons_of_ne_nil hruns
    have hmainC : (fortio_main envC d false (r :: rs)).1 =
        (runFold io_read envC d (envC.ab + d.scoff * d.len) (r :: rs) 0).1 := by
      simp [fortio_main, htag, hgz, hrk, fortio_stat_bcst]
    rw [hmainC]
    simp only [runFold]
    rw [io_read_coord_const envC d _ c hCm hCc rfl hio]
    exact runFold_stat_frozen io_read envC d _
      (fun z hz => io_read_stat_nonzero envC d z hz) rs c hc
  · have hmainN : (fortio_main envN d false runs).1 =
        (runFold io_read envN d (envN.ab + d.scoff * d.len) runs 0).1 := by
      simp [fortio_main, htag, hgz, hrk, fortio_stat_bcst]
    rw [hmainN]
    exact runFold_noncoord_read envN d _ hNm hNc runs 0

theorem C1_read_status_is_local_witness :
    (fortio_main envC1 dA false runs1).1 = 1 ∧
    (fortio_main envN1 dA false runs1).1 = 0 :=
  C1_read_status_is_local envC1 envN1 dA runs1 1 rfl rfl rfl (by decide)
    (by decide) (fun _ _ _ _ _ => rfl) rfl (by decide) (by decide) (by decide)

theorem io_read_coord_send_mem (env : Env) (d : Desc) (z : Zparm)
    (hm : env.localMode = false) (hc : env.lcpu = env.ioproc)
    (hl : fortOwner d z.index ≠ env.lcpu) :
    ∃ a s, Event.send (fortOwner d z.index) a z.cnt s d.kind d.len ∈
      (io_read env d z).2 := by
  refine ⟨if env.localAdr z.ab z.index = Ptr.null then Ptr.gbuf
      else env.localAdr z.ab z.index,
    if env.localAdr z.ab z.index = Ptr.null then 1 else z.str, ?_⟩
  rw [io_read_coord_events env d z hm hc]
  rw [List.mem_append]
  right
  simp only [ownerLoop]
  rw [if_pos (by simp [fortOwner] : (0 : Int) ≤ fortOwner d z.index)]
  rw [if_pos hl]
  simp

/-- C2: on the multi-participant read path, for every run at the I/O
coordinator the owner fan-out is performed unconditionally: the
enumeration starts at the Ownership Resolver's owner (the fan-out
cursor is freshly zeroed and the walk stops at the negative sentinel,
both per the stubbed resolver macros), the buffer is sent to every
enumerated owner other than the coordinator itself, and these sends
happen even when a previously recorded nonzero status suppressed the
callback for this run.  Consequently, assuming the resolvers are
consistent (a participant holding local data for the run is the
enumerated owner) and run iteration is identical across participants
(same count), a non-coordinator owner's blocking receive is matched by
a coordinator send addressed to it. -/
theorem C2_read_fanout_always_sends (envC envN : Env) (d : Desc)
    (zC zN : Zparm)
    (hCm : envC.localMode = false) (hCc : envC.lcpu = envC.ioproc)
    (hNm : envN.localMode = false) (hNc : envN.lcpu ≠ envN.ioproc)
    (hioeq : envN.ioproc = envC.lcpu) (hcnt : zN.cnt = zC.cnt)
    (hown : envN.localAdr zN.ab zN.index ≠ Ptr.null →
      envN.lcpu = fortOwner d zC.index) :
    (zC.stat ≠ 0 → ∀ e ∈ (io_read envC d zC).2, e.isCb = false) ∧
    (fortOwner d zC.index ≠ envC.lcpu →
      ∃ a s, Event.send (fortOwner d zC.index) a zC.cnt s d.kind d.len ∈
        (io_read envC d zC).2) ∧
    (envN.localAdr zN.ab zN.index ≠ Ptr.null →
      Event.recv envN.ioproc (envN.localAdr zN.ab zN.index) zN.cnt zN.str
          d.kind d.len ∈ (io_read envN d zN).2 ∧
      ∃ a s, Event.send envN.lcpu a zN.cnt s d.kind d.len ∈
        (io_read envC d zC).2) := by
  refine ⟨?_, ?_, ?_⟩
  · intro hs e he
    rw [io_read_coord_events envC d zC hCm hCc, if_neg hs] at he
    rcases List.mem_append.mp he with h1 | h2
    · rcases List.mem_append.mp h1 with h3 | h4
      · rcases List.mem_cons.mp h3 with rfl | he2
        · rfl
        · rcases List.mem_cons.mp he2 with rfl | he3
          · rfl
          · exact absurd he3 (List.not_mem_nil _)
      · exact absurd h4 (List.not_mem_nil _)
    · exact ownerLoop_no_cb _ _ _ _ _ _ _ _ _ _ _ h2
  · exact io_read_coord_send_mem envC d zC hCm hCc
  · intro hadr
    constructor
    · simp [io_read, hNm, hNc, hadr]
    · have h0 : envN.lcpu = fortOwner d zC.index := hown hadr
      have hl : fortOwner d zC.index ≠ envC.lcpu := by
        rw [← h0]
        intro he
        exact hNc (by rw [hioeq]; exact he)
      obtain ⟨a, s, hmem⟩ := io_read_coord_send_mem envC d zC hCm hCc hl
      exact ⟨a, s, by rw [h0, hcnt]; exact hmem⟩

theorem C2_read_fanout_always_sends_witness :
    Event.recv envN2.ioproc (envN2.localAdr zp0.ab zp0.index) zp0.cnt zp0.str
      dA.kind dA.len ∈ (io_read envN2 dA zp0).2 :=
  ((C2_read_fanout_always_sends envC2 envN2 dA zp0 zp0 rfl rfl rfl
    (by decide) rfl rfl (fun _ => rfl)).2.2 (by decide)).1
